import Mathlib

/-!
Shallow embedding of `src/app/parsers/xbrl_parser.py` (repository
GotaSuzuki/TradeChartJp): the EDINET XBRL financial-metric extractor.

The Python module parses one XBRL document into per-metric annual series:
  * `parse_file` builds a namespace map, a context table and a unit table,
    scans the document for each configured taxonomy concept, and merges the
    collected fact points into one series per metric;
  * `_build_context_map` / `_build_unit_map` build the two lookup tables;
  * `_merge_series` filters, sorts (stably, by year) and deduplicates; and
  * `_safe_year` derives a calendar year from a date string with fallbacks.

Modelling conventions:
  * Python `dict`s (3.7+) are insertion-ordered with in-place value update;
    they are modelled by association lists with `dictSet` / `dictGet`.
  * `list.sort` is a stable sort; any stable sort by a key is extensionally
    unique, so it is modelled by a stable insertion sort (`sortByYear`).
  * Python `float` values are opaque here: no claim depends on floating-point
    arithmetic, only on whether `float(text)` succeeds.  A parsed float is
    represented by the literal text that produced it (`PyFloat`), and
    `pyFloatAccepts` models CPython's acceptance of a string by `float()`.
  * `int(s)` and `datetime.fromisoformat(s)` (date part, `YYYY-MM-DD`) are
    modelled by `pyInt?` and `fromisoformatYear?`.
  * lxml element trees are modelled by `Xml`; `findall(".//{ns}local")`
    returns the matching proper descendants in document order.
-/

namespace XbrlParser

/-! ## Python dict model: insertion-ordered association lists -/

/-- `d[k] = v` on a Python dict: updates the value in place if `k` is
present (keeping its position), otherwise appends the new binding. -/
def dictSet {α β : Type} [DecidableEq α] (d : List (α × β)) (k : α) (v : β) :
    List (α × β) :=
  if d.any (fun p => p.1 = k) then
    d.map (fun p => if p.1 = k then (k, v) else p)
  else
    d ++ [(k, v)]

/-- `d.get(k)` on a Python dict. -/
def dictGet {α β : Type} [DecidableEq α] (d : List (α × β)) (k : α) :
    Option β :=
  (d.find? (fun p => p.1 = k)).map (fun p => p.2)

/-! ## Python string-parsing primitives -/

/-- Characters stripped by `int()` / `float()` before parsing
(ASCII whitespace, the cases arising for text nodes). -/
def isPyWhitespace (c : Char) : Bool :=
  c = ' ' || c = '\t' || c = '\n' || c = '\r' || c = '\x0b' || c = '\x0c'

/-- ASCII decimal digit. -/
def isDigitChar (c : Char) : Bool :=
  '0' ≤ c && c ≤ '9'

/-- Consume a maximal run of digits where an underscore may stand between
two digits (Python numeric-literal underscores); returns the remainder. -/
def munchDigits : List Char → List Char
  | [] => []
  | [c] => if isDigitChar c then [] else [c]
  | c :: d :: ds =>
    if isDigitChar c then munchDigits (d :: ds)
    else if c = '_' && isDigitChar d then munchDigits ds
    else c :: d :: ds

/-- A nonempty digit run (underscores between digits allowed): first char
must be a digit; returns the remainder after the run, or `none`. -/
def takeDigits : List Char → Option (List Char)
  | [] => none
  | c :: cs => if isDigitChar c then some (munchDigits cs) else none

/-- Strip leading and trailing whitespace. -/
def stripWs (l : List Char) : List Char :=
  ((l.dropWhile isPyWhitespace).reverse.dropWhile isPyWhitespace).reverse

/-- Drop an optional sign. -/
def dropSign : List Char → List Char
  | c :: cs => if c = '+' || c = '-' then cs else c :: cs
  | [] => []

/-- Numeric value of a digit/underscore run (underscores ignored). -/
def digitsVal (l : List Char) : Nat :=
  l.foldl (fun acc c => if isDigitChar c then 10 * acc + (c.toNat - '0'.toNat) else acc) 0

/-- Model of Python `int(s)` (base 10): strip whitespace, optional sign,
then a nonempty digit run with underscores only between digits. -/
def pyInt? (s : String) : Option Int :=
  let l := stripWs s.toList
  match l with
  | [] => none
  | c :: cs =>
    let (neg, body) : Bool × List Char :=
      if c = '-' then (true, cs) else if c = '+' then (false, cs) else (false, c :: cs)
    match takeDigits body with
    | some [] =>
        let n : Int := Int.ofNat (digitsVal body)
        some (if neg then -n else n)
    | _ => none

/-- Exponent part of a float literal: `e`/`E`, optional sign, digit run. -/
def floatExpOk (l : List Char) : Bool :=
  match l with
  | [] => true
  | c :: cs =>
    if c = 'e' || c = 'E' then
      match takeDigits (dropSign cs) with
      | some [] => true
      | _ => false
    else false

/-- Mantissa-and-exponent part of a float literal (after the sign):
`digits [. digits] [exp]` or `. digits [exp]`. -/
def floatBodyOk (l : List Char) : Bool :=
  match takeDigits l with
  | some rest =>
    (match rest with
     | '.' :: rest2 =>
       (match takeDigits rest2 with
        | some rest3 => floatExpOk rest3
        | none => floatExpOk rest2)
     | _ => floatExpOk rest)
  | none =>
    match l with
    | '.' :: rest =>
      (match takeDigits rest with
       | some rest2 => floatExpOk rest2
       | none => false)
    | _ => false

/-- Case-insensitive ASCII comparison with a lowercase pattern. -/
def charLowerEq (c p : Char) : Bool :=
  c = p || (Char.ofNat (c.toNat + 32) = p && 'A' ≤ c && c ≤ 'Z')

/-- `l` spells `pat` (lowercase pattern) case-insensitively. -/
def spellsCI : List Char → List Char → Bool
  | [], [] => true
  | c :: cs, p :: ps => charLowerEq c p && spellsCI cs ps
  | _, _ => false

/-- Model of CPython's acceptance of a string by `float(s)`: strip
whitespace, optional sign, then a decimal literal or `inf`, `infinity`,
`nan` (case-insensitive). -/
def pyFloatAccepts (s : String) : Bool :=
  let l := dropSign (stripWs s.toList)
  floatBodyOk l || spellsCI l "inf".toList || spellsCI l "infinity".toList ||
    spellsCI l "nan".toList

/-- A Python float value, represented opaquely by the accepted literal text
(no claim in this development compares floats numerically). -/
structure PyFloat where
  lit : String
deriving DecidableEq, Repr

/-- Model of `float(s)`: the parsed value when `s` is accepted. -/
def pyFloat? (s : String) : Option PyFloat :=
  if pyFloatAccepts s then some ⟨s⟩ else none

/-! ## `datetime.fromisoformat` (date part) -/

/-- Gregorian leap year. -/
def isLeap (y : Nat) : Bool :=
  (y % 4 = 0 && y % 100 ≠ 0) || y % 400 = 0

/-- Days in a month (1-12) of year `y`. -/
def daysInMonth (y m : Nat) : Nat :=
  if m = 2 then (if isLeap y then 29 else 28)
  else if m = 4 || m = 6 || m = 9 || m = 11 then 30
  else 31

/-- Fields `(year, month, day)` of a string of the exact shape
`YYYY-MM-DD` with a valid calendar date, as accepted by
`datetime.fromisoformat` on a 10-character date string; `none` on any
deviation (which raises `ValueError` in Python). -/
def isoDateFields? (s : String) : Option (Nat × Nat × Nat) :=
  match s.toList with
  | [y1, y2, y3, y4, d1, m1, m2, d2, dd1, dd2] =>
    if isDigitChar y1 && isDigitChar y2 && isDigitChar y3 && isDigitChar y4 &&
       d1 = '-' && isDigitChar m1 && isDigitChar m2 && d2 = '-' &&
       isDigitChar dd1 && isDigitChar dd2 then
      let y := digitsVal [y1, y2, y3, y4]
      let m := digitsVal [m1, m2]
      let d := digitsVal [dd1, dd2]
      if 1 ≤ y && 1 ≤ m && m ≤ 12 && 1 ≤ d && d ≤ daysInMonth y m then
        some (y, m, d)
      else none
    else none
  | _ => none

/-- `.year` of `datetime.fromisoformat(s)` when it succeeds. -/
def fromisoformatYear? (s : String) : Option Int :=
  (isoDateFields? s).map (fun f => Int.ofNat f.1)

/-- `_safe_year(value)`: try `datetime.fromisoformat(value[:10]).year`;
on `ValueError` try `int(value[:4])`; on `ValueError` return `None`. -/
def safe_year (value : String) : Option Int :=
  match fromisoformatYear? (value.take 10) with
  | some y => some y
  | none => pyInt? (value.take 4)

/-! ## XML document model (lxml element tree) -/

/-- An XML element: namespace URI, local name, attributes, text node
(the text before the first child, `None` when empty in lxml) and child
elements in document order. -/
inductive Xml where
  | elem (nsUri : String) (locName : String) (attrs : List (String × String))
      (text : Option String) (children : List Xml)

def Xml.nsUri : Xml → String
  | .elem n _ _ _ _ => n

def Xml.locName : Xml → String
  | .elem _ l _ _ _ => l

def Xml.text : Xml → Option String
  | .elem _ _ _ t _ => t

/-- `node.get(name)` on an lxml element (attribute lookup). -/
def Xml.attr : Xml → String → Option String
  | .elem _ _ a _ _, name => dictGet a name

mutual

/-- Proper descendants of an element, in document order. -/
def Xml.descendants : Xml → List Xml
  | .elem _ _ _ _ cs => descendantsList cs

def descendantsList : List Xml → List Xml
  | [] => []
  | c :: cs => c :: (Xml.descendants c ++ descendantsList cs)

end

/-- `root.findall(".//{ns}loc")`: matching proper descendants, document
order. -/
def findall (root : Xml) (ns loc : String) : List Xml :=
  root.descendants.filter (fun e => e.nsUri == ns && e.locName == loc)

/-- `root.find(".//{ns}loc")`: first match, if any. -/
def findFirst (root : Xml) (ns loc : String) : Option Xml :=
  (findall root ns loc).head?

/-- Python truthiness of an optional string (`None` and `""` are falsy). -/
def strTruthy : Option String → Bool
  | none => false
  | some s => s ≠ ""

/-- Truthiness of `e is not None and e.text` for an optional element. -/
def optTextTruthy : Option Xml → Bool
  | none => false
  | some e => strTruthy e.text

/-- Text of an optional element, defaulting to `""`; only used under an
`optTextTruthy` guard, so the default is never observed. -/
def optText (o : Option Xml) : String :=
  (o.bind Xml.text).getD ""

/-! ## Context and unit table construction -/

/-- `ContextInfo` dataclass: year and period type of one context. -/
structure ContextInfo where
  year : Option Int
  period_type : String
deriving DecidableEq, Repr

/-- Body of the `_build_context_map` loop for one `context` element:
locate its `period`, derive the year from `endDate` (duration) or
`instant`, defaulting to an absent year and `"duration"`. -/
def contextInfoOf (xbrli : String) (ctx : Xml) : ContextInfo :=
  match findFirst ctx xbrli "period" with
  | none => { year := none, period_type := "duration" }
  | some periodElem =>
    let endE := findFirst periodElem xbrli "endDate"
    let instE := findFirst periodElem xbrli "instant"
    if optTextTruthy endE then
      { year := safe_year (optText endE), period_type := "duration" }
    else if optTextTruthy instE then
      { year := safe_year (optText instE), period_type := "instant" }
    else
      { year := none, period_type := "duration" }

/-- A dict-building loop: each element either assigns one key-value pair
or is skipped; the fold is over the elements in document order. -/
def assignFold {α β : Type} (g : α → Option (String × β)) (l : List α) :
    List (String × β) :=
  l.foldl
    (fun acc x =>
      match g x with
      | none => acc
      | some kv => dictSet acc kv.1 kv.2)
    []

/-- `x` is an element whose `assignFold` step assigns key `k`. -/
def assignsKey {α β : Type} (g : α → Option (String × β)) (k : String) (x : α) :
    Bool :=
  match g x with
  | some kv => kv.1 == k
  | none => false

/-- Loop body of `_build_context_map`: every `context` element assigns
`contexts[context.get("id") or ""] = ContextInfo(...)`. -/
def ctxAssign (xbrli : String) (ctx : Xml) : Option (String × ContextInfo) :=
  some ((ctx.attr "id").getD "", contextInfoOf xbrli ctx)

/-- `_build_context_map(root, nsmap)`: empty when the `xbrli` prefix is
missing (or falsy); otherwise one entry per `context` element, keyed by
its `id` attribute (`""` when missing), later declarations overwriting
earlier ones with the same id. -/
def build_context_map (root : Xml) (nsmap : List (String × String)) :
    List (String × ContextInfo) :=
  match dictGet nsmap "xbrli" with
  | none => []
  | some xbrli =>
    if xbrli = "" then []
    else assignFold (ctxAssign xbrli) (findall root xbrli "context")

/-- `text.split(":")[-1]`: the segment after the last colon (the whole
string when it has no colon; every colon starts a fresh segment). -/
def lastColonSegment (s : String) : String :=
  String.mk (s.toList.foldl (fun acc c => if c = ':' then [] else acc ++ [c]) [])

/-- Loop body of `_build_unit_map`: a `unit` element with a `measure`
child with text assigns `units[unit.get("id") or ""]` the measure's last
colon segment; otherwise it is skipped (`continue`). -/
def unitAssign (xbrli : String) (u : Xml) : Option (String × String) :=
  match findFirst u xbrli "measure" with
  | none => none
  | some m =>
    match m.text with
    | none => none
    | some t => some ((u.attr "id").getD "", lastColonSegment t)

/-- `_build_unit_map(root, nsmap)`: empty when the `xbrli` prefix is
missing (or falsy); otherwise one entry per `unit` element that has a
`measure` child with text, keyed by its `id` attribute (`""` when
missing), storing the measure's last colon segment. -/
def build_unit_map (root : Xml) (nsmap : List (String × String)) :
    List (String × String) :=
  match dictGet nsmap "xbrli" with
  | none => []
  | some xbrli =>
    if xbrli = "" then []
    else assignFold (unitAssign xbrli) (findall root xbrli "unit")

/-! ## Fact scan -/

/-- One candidate fact point (the per-point `dict` built in
`parse_file`). -/
structure Point where
  year : Option Int
  value : Option PyFloat
  unit : Option String
  period_type : String
deriving DecidableEq, Repr

/-- The fact-scan loop body for one matching element: resolve its
`contextRef` (a `ContextInfo` dataclass instance is always truthy, so
`if not context` skips exactly when the lookup misses), coerce the text
to a float (`None` on empty text or `ValueError`), and resolve its
`unitRef` (an unresolved unit yields an absent unit). -/
def factOfNode (contexts : List (String × ContextInfo))
    (units : List (String × String)) (node : Xml) : Option Point :=
  match dictGet contexts ((node.attr "contextRef").getD "") with
  | none => none
  | some context =>
    some { year := context.year
           value := if strTruthy node.text then pyFloat? (node.text.getD "") else none
           unit := dictGet units ((node.attr "unitRef").getD "")
           period_type := context.period_type }

/-- `concept.split(":", 1)` followed by tuple unpacking: `none` models the
`ValueError` raised when the concept has no colon. -/
def splitFirstColon : List Char → Option (List Char × List Char)
  | [] => none
  | c :: cs =>
    if c = ':' then some ([], cs)
    else (splitFirstColon cs).map (fun p => (c :: p.1, p.2))

/-- Split a `prefix:LocalName` concept identifier at the first colon. -/
def splitConcept (c : String) : Option (String × String) :=
  (splitFirstColon c.toList).map (fun p => (String.mk p.1, String.mk p.2))

/-- Points contributed by one concept identifier: `none` when the concept
has no colon (the `ValueError` aborts the whole call); an empty list when
its prefix is missing from the namespace map (or maps to a falsy URI);
otherwise the fact points of the matching elements in document order. -/
def conceptPoints (root : Xml) (nsmap : List (String × String))
    (contexts : List (String × ContextInfo)) (units : List (String × String))
    (concept : String) : Option (List Point) :=
  match splitConcept concept with
  | none => none
  | some (pfx, locName) =>
    match dictGet nsmap pfx with
    | none => some []
    | some nsUri =>
      if nsUri = "" then some []
      else some ((findall root nsUri locName).filterMap (factOfNode contexts units))

/-- Per-concept step of the metric scan, over the `Option` accumulator:
append the points of the next concept. -/
def metricStep (root : Xml) (nsmap : List (String × String))
    (contexts : List (String × ContextInfo)) (units : List (String × String))
    (acc : Option (List Point)) (c : String) : Option (List Point) := do
  let ps ← acc
  let more ← conceptPoints root nsmap contexts units c
  pure (ps ++ more)

/-- The `points` list accumulated for one metric: candidate concepts in
declaration order, matching elements in document order. -/
def metricPoints (root : Xml) (nsmap : List (String × String))
    (contexts : List (String × ContextInfo)) (units : List (String × String))
    (concepts : List String) : Option (List Point) :=
  concepts.foldl (metricStep root nsmap contexts units) (some [])

/-! ## Merge -/

/-- The filter of `_merge_series`: keep points whose year and value are
both present. -/
def goodPoint (p : Point) : Bool :=
  p.year.isSome && p.value.isSome

/-- `int(point["year"])`: the year key of a point; every point reaching
this has a present year, so the default is never observed. -/
def yearKey (p : Point) : Int :=
  p.year.getD 0

/-- Stable insertion of a point into a year-sorted list: the new point
goes before every point of equal or larger year (it preceded them in the
input), preserving Python's stable `list.sort`. -/
def insertSorted (p : Point) : List Point → List Point
  | [] => [p]
  | q :: qs => if yearKey q < yearKey p then q :: insertSorted p qs else p :: q :: qs

/-- `filtered.sort(key=lambda item: item["year"])`: stable sort by year.
Stable sorting by a key has a unique result, so the stable insertion sort
is extensionally the Python sort. -/
def sortByYear : List Point → List Point
  | [] => []
  | p :: ps => insertSorted p (sortByYear ps)

/-- The `merged` dict loop of `_merge_series`: first point for a year is
stored; a later point for a stored year replaces it only if the stored
value is absent (unreachable after the filter, kept for fidelity). -/
def mergeLoop : List Point → List (Int × Point) → List (Int × Point)
  | [], merged => merged
  | p :: ps, merged =>
    let y := yearKey p
    match dictGet merged y with
    | none => mergeLoop ps (dictSet merged y p)
    | some existing =>
      if existing.value = none then mergeLoop ps (dictSet merged y p)
      else mergeLoop ps merged

/-- `_merge_series(points)`: filter out absent years/values, sort stably
by year, deduplicate by year (first wins), return `list(merged.values())`
in insertion order. -/
def merge_series (points : List Point) : List Point :=
  (mergeLoop (sortByYear (points.filter goodPoint)) []).map (fun kv => kv.2)

/-! ## Document-level entry point -/

/-- One parsed document: its root element and the raw `root.nsmap`
prefix-to-URI mapping (`none` is the default-namespace prefix). -/
structure XDocument where
  root : Xml
  rawNsmap : List (Option String × String)

/-- `{k or "": v for k, v in root.nsmap.items() if v}`. -/
def buildNsmap (raw : List (Option String × String)) : List (String × String) :=
  raw.foldl (fun acc kv => if kv.2 ≠ "" then dictSet acc (kv.1.getD "") kv.2 else acc) []

/-- The configured concept dictionary `METRIC_CONCEPTS_JP`
(`src/app/parsers/taxonomy_map.py`). -/
def METRIC_CONCEPTS_JP : List (String × List String) :=
  [("revenue", ["jpcrp030000-asr:NetSales", "ifrs-full:Revenue"]),
   ("operating_income", ["jpcrp030000-asr:OperatingIncome"]),
   ("net_income", ["jpcrp030000-asr:ProfitLossAttributableToOwnersOfParent",
                   "ifrs-full:ProfitLoss"]),
   ("operating_cash_flow",
    ["jpcrp030000-asr:NetCashProvidedByUsedInOperatingActivities",
     "ifrs-full:NetCashFlowsFromUsedInOperatingActivities"])]

/-- Per-metric step of the `parse_file` loop:
`metrics[metric] = _merge_series(points)` over the `Option` accumulator. -/
def parseStep (root : Xml) (nsmap : List (String × String))
    (contexts : List (String × ContextInfo)) (units : List (String × String))
    (acc : Option (List (String × List Point))) (mc : String × List String) :
    Option (List (String × List Point)) := do
  let metrics ← acc
  let pts ← metricPoints root nsmap contexts units mc.2
  pure (dictSet metrics mc.1 (merge_series pts))

/-- `XbrlParser(metric_concepts).parse_file(path)` after the document has
been parsed into a tree: build the namespace map and the two tables, scan
every metric's concepts, and merge each metric's points.  `none` models
the `ValueError` raised when a concept identifier has no colon. -/
def parse_file (metric_concepts : List (String × List String)) (doc : XDocument) :
    Option (List (String × List Point)) :=
  let nsmap := buildNsmap doc.rawNsmap
  let contexts := build_context_map doc.root nsmap
  let units := build_unit_map doc.root nsmap
  metric_concepts.foldl (parseStep doc.root nsmap contexts units) (some [])

/-! ## Concrete example documents (used to instantiate the theorems) -/

/-- A well-formed sample document in the shape of the repository's test
fixture: contexts for fiscal 2022 and 2023, a `JPY` unit, and one
`NetSales` fact per year (the 2023 fact appears first in the document). -/
def docA : XDocument :=
  { root := .elem "X" "xbrl" [] none
      [.elem "X" "context" [("id", "c2022")] none
        [.elem "X" "period" [] none
          [.elem "X" "endDate" [] (some "2022-03-31") []]],
       .elem "X" "context" [("id", "c2023")] none
        [.elem "X" "period" [] none
          [.elem "X" "endDate" [] (some "2023-03-31") []]],
       .elem "X" "unit" [("id", "u1")] none
        [.elem "X" "measure" [] (some "iso4217:JPY") []],
       .elem "J" "NetSales" [("contextRef", "c2023"), ("unitRef", "u1")]
         (some "1000000") [],
       .elem "J" "NetSales" [("contextRef", "c2022"), ("unitRef", "u1")]
         (some "900000") []],
    rawNsmap := [(some "xbrli", "X"), (some "jp", "J")] }

/-- The fiscal-2022 revenue point extracted from `docA`. -/
def ptA2022 : Point :=
  { year := some 2022, value := some { lit := "900000" },
    unit := some "JPY", period_type := "duration" }

/-- The fiscal-2023 revenue point extracted from `docA`. -/
def ptA2023 : Point :=
  { year := some 2023, value := some { lit := "1000000" },
    unit := some "JPY", period_type := "duration" }

/-- A point with an absent value (a fact whose text failed coercion). -/
def ptBadValue : Point :=
  { year := some 2023, value := none, unit := none,
    period_type := "duration" }

/-- `docA` with a namespace map that lacks the `xbrli` prefix. -/
def docB : XDocument :=
  { root := docA.root, rawNsmap := [(some "jp", "J")] }

/-- A context declaration with no `id` attribute (fiscal 2022). -/
def ctxC3 : Xml :=
  .elem "X" "context" [] none
    [.elem "X" "period" [] none
      [.elem "X" "endDate" [] (some "2022-03-31") []]]

/-- A fact element with no `contextRef` and no `unitRef` attribute. -/
def factC3 : Xml :=
  .elem "J" "NetSales" [] (some "900000") []

/-- A document whose only context declaration has no `id` attribute and
whose only fact has no `contextRef` attribute. -/
def docC3 : XDocument :=
  { root := .elem "X" "xbrl" [] none [ctxC3, factC3],
    rawNsmap := [(some "xbrli", "X"), (some "jp", "J")] }

/-- A unit declaration with no `id` attribute. -/
def unitC10 : Xml :=
  .elem "X" "unit" [] none
    [.elem "X" "measure" [] (some "iso4217:JPY") []]

/-- A fact element with a resolving `contextRef` but no `unitRef`. -/
def factC10 : Xml :=
  .elem "J" "NetSales" [("contextRef", "c2023")] (some "1000000") []

/-- A document whose only unit declaration has no `id` attribute and
whose only fact has no `unitRef` attribute. -/
def docC10 : XDocument :=
  { root := .elem "X" "xbrl" [] none
      [.elem "X" "context" [("id", "c2023")] none
        [.elem "X" "period" [] none
          [.elem "X" "endDate" [] (some "2023-03-31") []]],
       unitC10, factC10],
    rawNsmap := [(some "xbrli", "X"), (some "jp", "J")] }

/-! ## Lemmas: `find?` and filters -/

theorem find?_eq_head?_filter {α : Type} (p : α → Bool) (l : List α) :
    l.find? p = (l.filter p).head? := by
  induction l with
  | nil => rfl
  | cons a l ih =>
    by_cases h : p a
    · rw [List.find?_cons_of_pos _ h, List.filter_cons_of_pos h]; rfl
    · rw [List.find?_cons_of_neg _ h, List.filter_cons_of_neg h, ih]

/-! ## Lemmas: the Python dict model -/

theorem dictGet_cons {α β : Type} [DecidableEq α] (q : α × β) (d : List (α × β))
    (k : α) : dictGet (q :: d) k = if q.1 = k then some q.2 else dictGet d k := by
  by_cases h : q.1 = k
  · rw [dictGet, List.find?_cons_of_pos _ (by simpa using h)]
    simp [h]
  · rw [dictGet, List.find?_cons_of_neg _ (by simpa using h), if_neg h, dictGet]

theorem dictGet_eq_none_iff {α β : Type} [DecidableEq α] (d : List (α × β)) (k : α) :
    dictGet d k = none ↔ ∀ p ∈ d, p.1 ≠ k := by
  induction d with
  | nil => simp [dictGet]
  | cons q d ih =>
    rw [dictGet_cons]
    by_cases h : q.1 = k
    · simp [h]
    · simp [h, ih]

theorem dictGet_eq_some_mem {α β : Type} [DecidableEq α] {d : List (α × β)}
    {k : α} {v : β} (h : dictGet d k = some v) : (k, v) ∈ d := by
  induction d with
  | nil => simp [dictGet] at h
  | cons q d ih =>
    rw [dictGet_cons] at h
    by_cases hq : q.1 = k
    · rw [if_pos hq] at h
      have hb : q.2 = v := by simpa using congrArg (fun o => Option.getD o q.2) h
      have : q = (k, v) := Prod.ext_iff.mpr ⟨hq, hb⟩
      simp [this]
    · rw [if_neg hq] at h
      exact List.mem_cons_of_mem _ (ih h)

theorem dictGet_of_mem_nodup {α β : Type} [DecidableEq α] {d : List (α × β)}
    {k : α} {v : β} (hnd : (d.map Prod.fst).Nodup) (hm : (k, v) ∈ d) :
    dictGet d k = some v := by
  induction d with
  | nil => simp at hm
  | cons q d ih =>
    rw [List.map_cons, List.nodup_cons] at hnd
    rw [dictGet_cons]
    rcases List.mem_cons.mp hm with hq | hd
    · rw [← hq]
      simp
    · have hk : k ∈ d.map Prod.fst := List.mem_map.mpr ⟨(k, v), hd, rfl⟩
      have hne : q.1 ≠ k := fun e => hnd.1 (e ▸ hk)
      rw [if_neg hne]
      exact ih hnd.2 hd

theorem dictSet_of_forall_ne {α β : Type} [DecidableEq α] {d : List (α × β)}
    {k : α} (v : β) (h : ∀ p ∈ d, p.1 ≠ k) : dictSet d k v = d ++ [(k, v)] := by
  have : d.any (fun p => p.1 = k) = false := by
    simp only [List.any_eq_false, decide_eq_true_eq]
    exact h
  simp [dictSet, this]

theorem find?_map_overwrite {α β : Type} [DecidableEq α] (k : α) (v : β) :
    ∀ d : List (α × β), d.any (fun p => p.1 = k) = true →
      (d.map (fun p => if p.1 = k then (k, v) else p)).find?
        (fun p => p.1 = k) = some (k, v) := by
  intro d
  induction d with
  | nil => simp
  | cons q d ih =>
    intro hany
    by_cases hq : q.1 = k
    · rw [List.map_cons, if_pos hq]
      exact List.find?_cons_of_pos _ (by simp)
    · rw [List.map_cons, if_neg hq]
      rw [List.find?_cons_of_neg _ (by simpa using hq)]
      refine ih ?_
      simpa [List.any_cons, hq] using hany

theorem find?_map_overwrite_ne {α β : Type} [DecidableEq α] (k k' : α) (v : β)
    (hne : k' ≠ k) (d : List (α × β)) :
    (d.map (fun p => if p.1 = k then (k, v) else p)).find? (fun p => p.1 = k')
      = d.find? (fun p => p.1 = k') := by
  induction d with
  | nil => rfl
  | cons q d ih =>
    rw [List.map_cons]
    by_cases hq : q.1 = k
    · rw [if_pos hq]
      have h1 : ¬ ((k, v).1 = k') := fun e => hne e.symm
      have h2 : ¬ (q.1 = k') := fun e => hne (hq ▸ e).symm
      rw [List.find?_cons_of_neg _ (by simpa using h1),
        List.find?_cons_of_neg _ (by simpa using h2), ih]
    · rw [if_neg hq]
      by_cases hq' : q.1 = k'
      · rw [List.find?_cons_of_pos _ (by simpa using hq'),
          List.find?_cons_of_pos _ (by simpa using hq')]
      · rw [List.find?_cons_of_neg _ (by simpa using hq'),
          List.find?_cons_of_neg _ (by simpa using hq'), ih]

theorem dictGet_dictSet_self {α β : Type} [DecidableEq α] (d : List (α × β))
    (k : α) (v : β) : dictGet (dictSet d k v) k = some v := by
  by_cases hany : d.any (fun p => p.1 = k) = true
  · rw [dictSet, if_pos hany, dictGet, find?_map_overwrite k v d hany]
    rfl
  · have h : ∀ p ∈ d, p.1 ≠ k := by
      intro p hp e
      exact hany (List.any_eq_true.mpr ⟨p, hp, by simpa using e⟩)
    rw [dictSet, if_neg hany, dictGet, List.find?_append]
    have h1 : d.find? (fun p => p.1 = k) = none := by
      rw [List.find?_eq_none]
      intro p hp
      simpa using h p hp
    rw [h1, Option.none_or, List.find?_cons_of_pos _ (by simp)]
    rfl

theorem dictGet_dictSet_ne {α β : Type} [DecidableEq α] (d : List (α × β))
    (k k' : α) (v : β) (hne : k' ≠ k) :
    dictGet (dictSet d k v) k' = dictGet d k' := by
  by_cases hany : d.any (fun p => p.1 = k) = true
  · rw [dictSet, if_pos hany, dictGet, find?_map_overwrite_ne k k' v hne d, dictGet]
  · rw [dictSet, if_neg hany, dictGet, List.find?_append]
    have h2 : ([(k, v)] : List (α × β)).find? (fun p => p.1 = k') = none := by
      rw [List.find?_eq_none]
      intro p hp e
      rw [List.mem_singleton.mp hp] at e
      have hk : k = k' := by simpa using e
      exact hne hk.symm
    rw [h2, Option.or_none, dictGet]

theorem mem_dictSet {α β : Type} [DecidableEq α] {d : List (α × β)}
    {k : α} {v : β} {p : α × β} (h : p ∈ dictSet d k v) : p ∈ d ∨ p = (k, v) := by
  by_cases hany : d.any (fun q => q.1 = k) = true
  · rw [dictSet, if_pos hany] at h
    rcases List.mem_map.mp h with ⟨q, hq, he⟩
    by_cases hk : q.1 = k
    · rw [if_pos hk] at he
      exact Or.inr he.symm
    · rw [if_neg hk] at he
      exact Or.inl (he ▸ hq)
  · rw [dictSet, if_neg hany] at h
    rcases List.mem_append.mp h with h | h
    · exact Or.inl h
    · exact Or.inr (List.mem_singleton.mp h)

theorem dictGet_isSome_dictSet {α β : Type} [DecidableEq α] (d : List (α × β))
    (k k' : α) (v : β) (h : (dictGet d k').isSome ∨ k' = k) :
    (dictGet (dictSet d k v) k').isSome := by
  by_cases he : k' = k
  · rw [he, dictGet_dictSet_self]
    rfl
  · rw [dictGet_dictSet_ne d k k' v he]
    rcases h with h | h
    · exact h
    · exact absurd h he

/-! ## Lemmas: `assignFold` (loop-built dicts) -/

theorem foldl_assign_get {α β : Type} (g : α → Option (String × β)) :
    ∀ (l : List α) (acc : List (String × β)) (k : String),
      dictGet
          (l.foldl
            (fun a x =>
              match g x with
              | none => a
              | some kv => dictSet a kv.1 kv.2)
            acc) k
        = match l.reverse.find? (assignsKey g k) with
          | some x => (g x).map (fun kv => kv.2)
          | none => dictGet acc k := by
  intro l
  induction l with
  | nil => intro acc k; rfl
  | cons x xs ih =>
    intro acc k
    rw [List.foldl_cons, ih, List.reverse_cons, List.find?_append]
    cases hf : xs.reverse.find? (assignsKey g k) with
    | some x' => rfl
    | none =>
      rw [Option.none_or]
      cases hg : g x with
      | none =>
        have hp : assignsKey g k x = false := by rw [assignsKey, hg]
        rw [List.find?_cons_of_neg _ (ne_true_of_eq_false hp), List.find?_nil]
      | some kv =>
        by_cases hk : kv.1 = k
        · have hp : assignsKey g k x = true := by rw [assignsKey, hg]; simp [hk]
          rw [List.find?_cons_of_pos _ hp]
          simp only [hg, Option.map_some']
          rw [← hk]
          exact dictGet_dictSet_self acc kv.1 kv.2
        · have hp : assignsKey g k x = false := by
            rw [assignsKey, hg]
            simp [hk]
          rw [List.find?_cons_of_neg _ (ne_true_of_eq_false hp), List.find?_nil]
          simp only [hg]
          exact dictGet_dictSet_ne acc kv.1 k kv.2 (fun e => hk e.symm)

theorem assignFold_get {α β : Type} (g : α → Option (String × β)) (l : List α)
    (k : String) :
    dictGet (assignFold g l) k
      = match l.reverse.find? (assignsKey g k) with
        | some x => (g x).map (fun kv => kv.2)
        | none => none := by
  rw [assignFold, foldl_assign_get]
  cases l.reverse.find? (assignsKey g k) <;> rfl

theorem assignFold_get_isSome {α β : Type} (g : α → Option (String × β))
    (l : List α) (k : String) (x : α) (hx : x ∈ l)
    (hpx : assignsKey g k x = true) :
    (dictGet (assignFold g l) k).isSome := by
  rw [assignFold_get]
  have hs : (l.reverse.find? (assignsKey g k)).isSome :=
    List.find?_isSome.mpr ⟨x, List.mem_reverse.mpr hx, hpx⟩
  cases hf : l.reverse.find? (assignsKey g k) with
  | none => rw [hf] at hs; simp at hs
  | some y =>
    have hy : assignsKey g k y = true := List.find?_some hf
    cases hg : g y with
    | none => rw [assignsKey, hg] at hy; cases hy
    | some kv => simp [hg]

theorem assignFold_get_unique {α β : Type} (g : α → Option (String × β))
    (l : List α) (k : String) (u : α) (h : l.filter (assignsKey g k) = [u]) :
    dictGet (assignFold g l) k = (g u).map (fun kv => kv.2) := by
  rw [assignFold_get]
  have hrev : l.reverse.filter (assignsKey g k) = [u] := by
    rw [List.filter_reverse, h, List.reverse_singleton]
  rw [find?_eq_head?_filter, hrev]
  rfl

/-! ## Lemmas: the stable sort by year -/

theorem mem_insertSorted (p : Point) :
    ∀ (l : List Point) (a : Point), a ∈ insertSorted p l ↔ a = p ∨ a ∈ l := by
  intro l
  induction l with
  | nil => intro a; simp [insertSorted]
  | cons q qs ih =>
    intro a
    simp only [insertSorted]
    by_cases h : yearKey q < yearKey p
    · rw [if_pos h]
      rw [List.mem_cons, ih, List.mem_cons]
      tauto
    · rw [if_neg h]
      rw [List.mem_cons, List.mem_cons]

theorem pairwise_insertSorted (p : Point) :
    ∀ l : List Point, l.Pairwise (fun a b => yearKey a ≤ yearKey b) →
      (insertSorted p l).Pairwise (fun a b => yearKey a ≤ yearKey b) := by
  intro l
  induction l with
  | nil => intro _; simp [insertSorted]
  | cons q qs ih =>
    intro h
    rw [List.pairwise_cons] at h
    simp only [insertSorted]
    by_cases hq : yearKey q < yearKey p
    · rw [if_pos hq, List.pairwise_cons]
      refine ⟨?_, ih h.2⟩
      intro a ha
      rcases (mem_insertSorted p qs a).mp ha with rfl | ha
      · exact le_of_lt hq
      · exact h.1 a ha
    · rw [if_neg hq, List.pairwise_cons]
      refine ⟨?_, List.pairwise_cons.mpr h⟩
      intro a ha
      rcases List.mem_cons.mp ha with rfl | ha
      · exact le_of_not_lt hq
      · exact le_trans (le_of_not_lt hq) (h.1 a ha)

theorem sortByYear_pairwise :
    ∀ l : List Point, (sortByYear l).Pairwise (fun a b => yearKey a ≤ yearKey b) := by
  intro l
  induction l with
  | nil => simp [sortByYear]
  | cons p ps ih =>
    simp only [sortByYear]
    exact pairwise_insertSorted p _ ih

theorem mem_sortByYear :
    ∀ (l : List Point) (a : Point), a ∈ sortByYear l ↔ a ∈ l := by
  intro l
  induction l with
  | nil => intro a; simp [sortByYear]
  | cons p ps ih =>
    intro a
    simp only [sortByYear]
    rw [mem_insertSorted, ih, List.mem_cons]

theorem filter_insertSorted (y : Int) (p : Point) :
    ∀ l : List Point,
      (insertSorted p l).filter (fun q => yearKey q == y)
        = if yearKey p == y then p :: l.filter (fun q => yearKey q == y)
          else l.filter (fun q => yearKey q == y) := by
  intro l
  induction l with
  | nil =>
    by_cases hp : (yearKey p == y) = true <;>
      simp [insertSorted, List.filter_cons, hp]
  | cons q qs ih =>
    simp only [insertSorted]
    by_cases hq : yearKey q < yearKey p
    · rw [if_pos hq]
      by_cases hpy : (yearKey p == y) = true
      · have h1 : yearKey p = y := by simpa using hpy
        have h2 : ¬ yearKey q = y := by
          intro e
          rw [e, ← h1] at hq
          exact lt_irrefl _ hq
        have hqy : (yearKey q == y) = false := by simpa using h2
        simp [List.filter_cons, hqy, hpy, ih]
      · simp [List.filter_cons, hpy, ih]
    · rw [if_neg hq]
      by_cases hpy : (yearKey p == y) = true <;>
        simp [List.filter_cons, hpy]

theorem sortByYear_filter (y : Int) :
    ∀ l : List Point,
      (sortByYear l).filter (fun q => yearKey q == y)
        = l.filter (fun q => yearKey q == y) := by
  intro l
  induction l with
  | nil => rfl
  | cons p ps ih =>
    simp only [sortByYear]
    rw [filter_insertSorted, ih, List.filter_cons]

theorem insertSorted_of_le (p : Point) (l : List Point)
    (h : ∀ q, l.head? = some q → yearKey p ≤ yearKey q) :
    insertSorted p l = p :: l := by
  cases l with
  | nil => rfl
  | cons q qs =>
    simp only [insertSorted]
    rw [if_neg (not_lt.mpr (h q rfl))]

theorem sortByYear_of_pairwise :
    ∀ l : List Point, l.Pairwise (fun a b => yearKey a ≤ yearKey b) →
      sortByYear l = l := by
  intro l
  induction l with
  | nil => intro _; rfl
  | cons p ps ih =>
    intro h
    simp only [sortByYear]
    rw [ih (List.Pairwise.of_cons h)]
    refine insertSorted_of_le p ps ?_
    intro q hq
    cases ps with
    | nil => cases hq
    | cons r rs =>
      have hr : r = q := by simpa using hq
      exact hr ▸ List.rel_of_pairwise_cons h (List.mem_cons_self r rs)

/-! ## Lemmas: the merge loop -/

theorem goodPoint_value_isSome {p : Point} (h : goodPoint p = true) :
    p.value.isSome := by
  rw [goodPoint, Bool.and_eq_true] at h
  exact h.2

theorem goodPoint_year_isSome {p : Point} (h : goodPoint p = true) :
    p.year.isSome := by
  rw [goodPoint, Bool.and_eq_true] at h
  exact h.1

theorem mergeLoop_get :
    ∀ (l : List Point) (acc : List (Int × Point)) (y : Int),
      (∀ p ∈ l, p.value.isSome) → (∀ kp ∈ acc, kp.2.value.isSome) →
      dictGet (mergeLoop l acc) y
        = match dictGet acc y with
          | some v => some v
          | none => l.find? (fun p => yearKey p == y) := by
  intro l
  induction l with
  | nil =>
    intro acc y _ _
    simp only [mergeLoop, List.find?_nil]
    cases dictGet acc y <;> rfl
  | cons p ps ih =>
    intro acc y hl hacc
    simp only [mergeLoop]
    cases hg : dictGet acc (yearKey p) with
    | none =>
      have hacc' : ∀ kp ∈ dictSet acc (yearKey p) p, kp.2.value.isSome := by
        intro kp hkp
        rcases mem_dictSet hkp with h | h
        · exact hacc kp h
        · rw [h]
          exact hl p (List.mem_cons_self p ps)
      rw [ih _ y (fun q hq => hl q (List.mem_cons_of_mem p hq)) hacc']
      by_cases hy : yearKey p = y
      · subst hy
        rw [dictGet_dictSet_self, hg, List.find?_cons]
        simp
      · rw [dictGet_dictSet_ne acc (yearKey p) y p (fun e => hy e.symm)]
        cases hay : dictGet acc y with
        | some v => rfl
        | none =>
          rw [List.find?_cons]
          have hf : (yearKey p == y) = false := by simpa using hy
          simp [hf]
    | some ex =>
      have hex : ex.value.isSome := hacc (yearKey p, ex) (dictGet_eq_some_mem hg)
      have hne : ¬ ex.value = none := by
        intro e
        rw [e] at hex
        cases hex
      show dictGet (if ex.value = none then mergeLoop ps (dictSet acc (yearKey p) p)
          else mergeLoop ps acc) y = _
      rw [if_neg hne, ih acc y (fun q hq => hl q (List.mem_cons_of_mem p hq)) hacc]
      cases hay : dictGet acc y with
      | some v => rfl
      | none =>
        have hy : ¬ (yearKey p = y) := by
          intro e
          rw [e, hay] at hg
          cases hg
        rw [List.find?_cons]
        have hf : (yearKey p == y) = false := by simpa using hy
        simp [hf]

theorem mergeLoop_inv :
    ∀ (l : List Point) (acc : List (Int × Point)),
      l.Pairwise (fun a b => yearKey a ≤ yearKey b) →
      (∀ p ∈ l, goodPoint p = true) →
      ((acc.map Prod.fst).Pairwise (· < ·)) →
      (∀ kp ∈ acc, yearKey kp.2 = kp.1 ∧ goodPoint kp.2 = true) →
      (∀ kp ∈ acc, ∀ p ∈ l, kp.1 ≤ yearKey p) →
      ((mergeLoop l acc).map Prod.fst).Pairwise (· < ·) ∧
        ∀ kp ∈ mergeLoop l acc, yearKey kp.2 = kp.1 ∧ goodPoint kp.2 = true := by
  intro l
  induction l with
  | nil =>
    intro acc _ _ h1 h2 _
    exact ⟨h1, h2⟩
  | cons p ps ih =>
    intro acc hsort hgood hkeys hkv hbound
    simp only [mergeLoop]
    cases hg : dictGet acc (yearKey p) with
    | none =>
      have hnotin : ∀ kp ∈ acc, kp.1 ≠ yearKey p :=
        (dictGet_eq_none_iff acc (yearKey p)).mp hg
      rw [dictSet_of_forall_ne p hnotin]
      refine ih _ (List.Pairwise.of_cons hsort)
        (fun q hq => hgood q (List.mem_cons_of_mem p hq)) ?_ ?_ ?_
      · rw [List.map_append, List.pairwise_append]
        refine ⟨hkeys, by simp, ?_⟩
        intro a ha b hb
        have hb' : b = yearKey p := by simpa using hb
        rcases List.mem_map.mp ha with ⟨kp, hkp, he⟩
        rw [hb', ← he]
        exact lt_of_le_of_ne (hbound kp hkp p (List.mem_cons_self p ps))
          (hnotin kp hkp)
      · intro kp hkp
        rcases List.mem_append.mp hkp with h | h
        · exact hkv kp h
        · rw [List.mem_singleton.mp h]
          exact ⟨rfl, hgood p (List.mem_cons_self p ps)⟩
      · intro kp hkp q hq
        rcases List.mem_append.mp hkp with h | h
        · exact hbound kp h q (List.mem_cons_of_mem p hq)
        · rw [List.mem_singleton.mp h]
          exact List.rel_of_pairwise_cons hsort hq
    | some ex =>
      have hex : ex.value.isSome :=
        goodPoint_value_isSome (hkv (yearKey p, ex) (dictGet_eq_some_mem hg)).2
      have hne : ¬ ex.value = none := by
        intro e
        rw [e] at hex
        cases hex
      show (((if ex.value = none then mergeLoop ps (dictSet acc (yearKey p) p)
          else mergeLoop ps acc).map Prod.fst).Pairwise (· < ·)) ∧
        ∀ kp ∈ (if ex.value = none then mergeLoop ps (dictSet acc (yearKey p) p)
          else mergeLoop ps acc), yearKey kp.2 = kp.1 ∧ goodPoint kp.2 = true
      rw [if_neg hne]
      exact ih _ (List.Pairwise.of_cons hsort)
        (fun q hq => hgood q (List.mem_cons_of_mem p hq)) hkeys hkv
        (fun kp hkp q hq => hbound kp hkp q (List.mem_cons_of_mem p hq))

theorem mergeLoop_of_pairwise_lt :
    ∀ (l : List Point) (acc : List (Int × Point)),
      l.Pairwise (fun a b => yearKey a < yearKey b) →
      (∀ kp ∈ acc, ∀ p ∈ l, kp.1 ≠ yearKey p) →
      mergeLoop l acc = acc ++ l.map (fun p => (yearKey p, p)) := by
  intro l
  induction l with
  | nil =>
    intro acc _ _
    simp [mergeLoop]
  | cons p ps ih =>
    intro acc hsort hne
    simp only [mergeLoop]
    have hnone : dictGet acc (yearKey p) = none :=
      (dictGet_eq_none_iff acc (yearKey p)).mpr
        (fun kp hkp => hne kp hkp p (List.mem_cons_self p ps))
    rw [hnone, dictSet_of_forall_ne p
      (fun kp hkp => hne kp hkp p (List.mem_cons_self p ps))]
    rw [ih _ (List.Pairwise.of_cons hsort) ?_]
    · rw [List.map_cons, List.append_assoc, List.singleton_append]
    · intro kp hkp q hq
      rcases List.mem_append.mp hkp with h | h
      · exact hne kp h q (List.mem_cons_of_mem p hq)
      · rw [List.mem_singleton.mp h]
        exact Int.ne_of_lt (List.rel_of_pairwise_cons hsort hq)

/-! ## Lemmas: `_merge_series` -/

theorem merge_series_inv (ps : List Point) :
    ((mergeLoop (sortByYear (ps.filter goodPoint)) []).map Prod.fst).Pairwise (· < ·) ∧
      ∀ kp ∈ mergeLoop (sortByYear (ps.filter goodPoint)) [],
        yearKey kp.2 = kp.1 ∧ goodPoint kp.2 = true := by
  refine mergeLoop_inv _ [] (sortByYear_pairwise _) ?_ (by simp) (by simp) (by simp)
  intro q hq
  exact List.of_mem_filter ((mem_sortByYear _ q).mp hq)

theorem merge_series_good {ps : List Point} {p : Point}
    (h : p ∈ merge_series ps) : goodPoint p = true := by
  rw [merge_series] at h
  rcases List.mem_map.mp h with ⟨kp, hkp, he⟩
  have := (merge_series_inv ps).2 kp hkp
  rw [← he]
  exact this.2

theorem merge_series_pairwise (ps : List Point) :
    (merge_series ps).Pairwise (fun a b => yearKey a < yearKey b) := by
  rw [merge_series]
  rw [List.pairwise_map]
  have h1 := (merge_series_inv ps).1
  have h2 := (merge_series_inv ps).2
  rw [List.pairwise_map] at h1
  refine h1.imp_of_mem ?_
  intro a b ha hb hab
  rw [(h2 a ha).1, (h2 b hb).1]
  exact hab

theorem merge_series_get (ps : List Point) (y : Int) :
    dictGet (mergeLoop (sortByYear (ps.filter goodPoint)) []) y
      = (ps.filter goodPoint).find? (fun q => yearKey q == y) := by
  rw [mergeLoop_get _ [] y ?_ (by simp)]
  · rw [show dictGet ([] : List (Int × Point)) y = none from rfl]
    rw [find?_eq_head?_filter, sortByYear_filter, ← find?_eq_head?_filter]
  · intro q hq
    exact goodPoint_value_isSome (List.of_mem_filter ((mem_sortByYear _ q).mp hq))

theorem mem_merge_series_iff (ps : List Point) (p : Point) :
    p ∈ merge_series ps ↔
      (ps.filter goodPoint).find? (fun q => yearKey q == yearKey p) = some p := by
  constructor
  · intro h
    rw [merge_series] at h
    rcases List.mem_map.mp h with ⟨kp, hkp, he⟩
    have hinv := (merge_series_inv ps).2 kp hkp
    have hnd : ((mergeLoop (sortByYear (ps.filter goodPoint)) []).map
        Prod.fst).Nodup :=
      (merge_series_inv ps).1.imp Int.ne_of_lt
    have hmem : (yearKey p, p) ∈ mergeLoop (sortByYear (ps.filter goodPoint)) [] := by
      have : kp = (yearKey p, p) := by
        cases kp with
        | mk a b =>
          have hb : b = p := he
          subst hb
          have ha : yearKey b = a := hinv.1
          rw [← ha]
      rw [← this]
      exact hkp
    have := dictGet_of_mem_nodup hnd hmem
    rw [merge_series_get] at this
    exact this
  · intro h
    have hget : dictGet (mergeLoop (sortByYear (ps.filter goodPoint)) [])
        (yearKey p) = some p := by
      rw [merge_series_get]
      exact h
    have hmem := dictGet_eq_some_mem hget
    rw [merge_series]
    exact List.mem_map.mpr ⟨(yearKey p, p), hmem, rfl⟩

theorem merge_series_of_sorted_good (l : List Point)
    (h1 : ∀ p ∈ l, goodPoint p = true)
    (h2 : l.Pairwise (fun a b => yearKey a < yearKey b)) :
    merge_series l = l := by
  rw [merge_series, List.filter_eq_self.mpr h1,
    sortByYear_of_pairwise _ (h2.imp le_of_lt),
    mergeLoop_of_pairwise_lt l [] h2 (by simp), List.nil_append, List.map_map]
  have hcomp : ((fun kv : Int × Point => kv.2) ∘ fun p => (yearKey p, p))
      = fun p : Point => p := rfl
  rw [hcomp]
  exact List.map_id' l

/-! ## Lemmas: the `parse_file` fold -/

theorem parseStep_none (root : Xml) (nsmap : List (String × String))
    (contexts : List (String × ContextInfo)) (units : List (String × String))
    (mc : String × List String) :
    parseStep root nsmap contexts units none mc = none := rfl

theorem parseStep_some {root : Xml} {nsmap : List (String × String)}
    {contexts : List (String × ContextInfo)} {units : List (String × String)}
    {metrics o : List (String × List Point)} {mc : String × List String}
    (h : parseStep root nsmap contexts units (some metrics) mc = some o) :
    ∃ pts, metricPoints root nsmap contexts units mc.2 = some pts ∧
      o = dictSet metrics mc.1 (merge_series pts) := by
  rw [parseStep] at h
  cases hmp : metricPoints root nsmap contexts units mc.2 with
  | none =>
    rw [hmp] at h
    cases h
  | some pts =>
    rw [hmp] at h
    exact ⟨pts, rfl, (Option.some.inj h).symm⟩

theorem foldl_parseStep_series :
    ∀ (cd : List (String × List String)) (root : Xml)
      (nsmap : List (String × String)) (contexts : List (String × ContextInfo))
      (units : List (String × String))
      (acc : Option (List (String × List Point))) (out : List (String × List Point)),
      (∀ o, acc = some o → ∀ ms ∈ o, ∃ pts, ms.2 = merge_series pts) →
      cd.foldl (parseStep root nsmap contexts units) acc = some out →
      ∀ ms ∈ out, ∃ pts, ms.2 = merge_series pts := by
  intro cd
  induction cd with
  | nil =>
    intro root nsmap contexts units acc out hacc hout
    rw [List.foldl_nil] at hout
    exact hacc out hout
  | cons mc cd ih =>
    intro root nsmap contexts units acc out hacc hout
    rw [List.foldl_cons] at hout
    refine ih root nsmap contexts units _ out ?_ hout
    intro o ho ms hms
    cases acc with
    | none => rw [parseStep_none] at ho; cases ho
    | some metrics =>
      rcases parseStep_some ho with ⟨pts, _, rfl⟩
      rcases mem_dictSet hms with h | h
      · exact hacc metrics rfl ms h
      · rw [h]
        exact ⟨pts, rfl⟩

theorem parse_series_exists {cd : List (String × List String)} {doc : XDocument}
    {out : List (String × List Point)} (hp : parse_file cd doc = some out) :
    ∀ ms ∈ out, ∃ pts, ms.2 = merge_series pts := by
  rw [parse_file] at hp
  refine foldl_parseStep_series cd _ _ _ _ (some []) out ?_ hp
  intro o ho ms hms
  rw [← Option.some.inj ho] at hms
  cases hms

/-! ## Lemmas: empty context table -/

theorem factOfNode_nil_contexts (units : List (String × String)) (node : Xml) :
    factOfNode [] units node = none := rfl

theorem conceptPoints_nil_contexts {root : Xml} {nsmap : List (String × String)}
    {units : List (String × String)} {c : String} {l : List Point}
    (h : conceptPoints root nsmap [] units c = some l) : l = [] := by
  rw [conceptPoints] at h
  cases hs : splitConcept c with
  | none => rw [hs] at h; cases h
  | some pl =>
    rw [hs] at h
    obtain ⟨pfx, locName⟩ := pl
    have h' : (match dictGet nsmap pfx with
        | none => some ([] : List Point)
        | some nsUri =>
          if nsUri = "" then some []
          else some (List.filterMap (factOfNode [] units)
            (findall root nsUri locName))) = some l := h
    cases hg : dictGet nsmap pfx with
    | none =>
      rw [hg] at h'
      exact (Option.some.inj h').symm
    | some ns =>
      rw [hg] at h'
      have h2 : (if ns = "" then some ([] : List Point)
          else some (List.filterMap (factOfNode [] units)
            (findall root ns locName))) = some l := h'
      by_cases hns : ns = ""
      · rw [if_pos hns] at h2
        exact (Option.some.inj h2).symm
      · rw [if_neg hns] at h2
        rw [← Option.some.inj h2]
        rw [List.filterMap_eq_nil_iff]
        intro a _
        exact factOfNode_nil_contexts units a

theorem metricStep_nil_contexts {root : Xml} {nsmap : List (String × String)}
    {units : List (String × String)} {acc : Option (List Point)} {c : String}
    {pts : List Point} (hacc : ∀ l, acc = some l → l = [])
    (h : metricStep root nsmap [] units acc c = some pts) : pts = [] := by
  cases acc with
  | none => rw [metricStep] at h; cases h
  | some ps =>
    rw [metricStep] at h
    cases hc : conceptPoints root nsmap [] units c with
    | none => rw [hc] at h; cases h
    | some more =>
      rw [hc] at h
      rw [← Option.some.inj h, hacc ps rfl, conceptPoints_nil_contexts hc]
      rfl

theorem metricPoints_nil_contexts {root : Xml} {nsmap : List (String × String)}
    {units : List (String × String)} {cs : List String} {pts : List Point}
    (h : metricPoints root nsmap [] units cs = some pts) : pts = [] := by
  rw [metricPoints] at h
  have main : ∀ (cs : List String) (acc : Option (List Point)) (pts : List Point),
      (∀ l, acc = some l → l = []) →
      cs.foldl (metricStep root nsmap [] units) acc = some pts → pts = [] := by
    intro cs
    induction cs with
    | nil =>
      intro acc pts hacc hf
      rw [List.foldl_nil] at hf
      exact hacc pts hf
    | cons c cs ih =>
      intro acc pts hacc hf
      rw [List.foldl_cons] at hf
      refine ih _ pts ?_ hf
      intro l hl
      exact metricStep_nil_contexts hacc hl
  refine main cs (some []) pts ?_ h
  intro l hl
  exact (Option.some.inj hl).symm

theorem foldl_parseStep_nil_contexts :
    ∀ (cd : List (String × List String)) (root : Xml)
      (nsmap : List (String × String)) (units : List (String × String))
      (acc : Option (List (String × List Point))) (out : List (String × List Point)),
      (∀ o, acc = some o → ∀ ms ∈ o, ms.2 = []) →
      cd.foldl (parseStep root nsmap [] units) acc = some out →
      ∀ ms ∈ out, ms.2 = [] := by
  intro cd
  induction cd with
  | nil =>
    intro root nsmap units acc out hacc hout
    rw [List.foldl_nil] at hout
    exact hacc out hout
  | cons mc cd ih =>
    intro root nsmap units acc out hacc hout
    rw [List.foldl_cons] at hout
    refine ih root nsmap units _ out ?_ hout
    intro o ho ms hms
    cases acc with
    | none => rw [parseStep_none] at ho; cases ho
    | some metrics =>
      rcases parseStep_some ho with ⟨pts, hpts, rfl⟩
      rcases mem_dictSet hms with h | h
      · exact hacc metrics rfl ms h
      · rw [h]
        rw [metricPoints_nil_contexts hpts]
        rfl

/-! ## Claim theorems -/

/-- C1: for every document and every configured metric, each series in
the mapping returned by `parse_file` has only present years and is
strictly ascending by year (`yearKey` is the year once `year.isSome`
holds), so in particular it has at most one entry per year. -/
theorem claim1_series_unique_ascending
    (cd : List (String × List String)) (doc : XDocument)
    (out : List (String × List Point)) (m : String) (s : List Point)
    (hp : parse_file cd doc = some out) (hm : (m, s) ∈ out) :
    (∀ p ∈ s, p.year.isSome) ∧ s.Pairwise (fun a b => yearKey a < yearKey b) := by
  rcases parse_series_exists hp (m, s) hm with ⟨pts, he⟩
  have he' : s = merge_series pts := he
  constructor
  · intro p hps
    rw [he'] at hps
    exact goodPoint_year_isSome (merge_series_good hps)
  · rw [he']
    exact merge_series_pairwise pts

/-- C1 witness: `parse_file` on the sample document returns the 2022 and
2023 revenue points in ascending order, and the theorem instantiates. -/
theorem claim1_witness :
    parse_file [("revenue", ["jp:NetSales"])] docA
      = some [("revenue", [ptA2022, ptA2023])] ∧
    (∀ p ∈ [ptA2022, ptA2023], p.year.isSome) ∧
    ([ptA2022, ptA2023]).Pairwise (fun a b => yearKey a < yearKey b) := by
  refine ⟨rfl, ?_⟩
  exact claim1_series_unique_ascending [("revenue", ["jp:NetSales"])] docA
    [("revenue", [ptA2022, ptA2023])] "revenue" [ptA2022, ptA2023]
    rfl (List.mem_singleton.mpr rfl)

/-- C2: a point is in the merged series iff it is the first point, in
scan order, among the year-and-value-bearing candidates with its year;
every later candidate with the same year is dropped.  The scan list
`ps` is built by `metricPoints` in concept-declaration order and then
document order, so when two concepts report the same year the
earlier-listed concept supplies the surviving point. -/
theorem claim2_first_scan_point_wins (ps : List Point) (p : Point) :
    p ∈ merge_series ps ↔
      (ps.filter goodPoint).find? (fun q => yearKey q == yearKey p) = some p :=
  mem_merge_series_iff ps p

/-- C3 counterexample: in `docC3` the only context declaration has no
`id` and the only fact has no `contextRef`.  The claim predicts the fact
is skipped (an empty `revenue` series); the parser instead resolves the
fact to the empty-id context and returns it, dated 2022. -/
theorem claim3_counterexample :
    parse_file [("revenue", ["jp:NetSales"])] docC3 = some
      [("revenue",
        [{ year := some 2022, value := some { lit := "900000" },
           unit := none, period_type := "duration" }])] ∧
    ([{ year := some 2022, value := some { lit := "900000" },
        unit := none, period_type := "duration" }] : List Point) ≠ [] :=
  ⟨rfl, List.cons_ne_nil _ _⟩

/-- C3 (amended): a context declaration with no `id` is stored under the
empty-string id, and a fact with a missing or empty context reference is
looked up under the empty string, so it resolves to the stored empty-id
context whenever one exists and is skipped only when none does. -/
theorem claim3_amended_empty_id_resolution
    (root : Xml) (nsmap : List (String × String)) (xbrli : String)
    (contexts : List (String × ContextInfo)) (units : List (String × String))
    (node ctx : Xml)
    (hx : dictGet nsmap "xbrli" = some xbrli) (hx' : xbrli ≠ "")
    (hctx : ctx ∈ findall root xbrli "context") (hid : ctx.attr "id" = none)
    (href : node.attr "contextRef" = none ∨ node.attr "contextRef" = some "") :
    (dictGet (build_context_map root nsmap) "").isSome ∧
    (dictGet contexts "" = none → factOfNode contexts units node = none) ∧
    (∀ ci, dictGet contexts "" = some ci →
      factOfNode contexts units node = some
        { year := ci.year,
          value := if strTruthy node.text then pyFloat? (node.text.getD "") else none,
          unit := dictGet units ((node.attr "unitRef").getD ""),
          period_type := ci.period_type }) := by
  have hkey : (node.attr "contextRef").getD "" = "" := by
    rcases href with h | h <;> rw [h] <;> rfl
  refine ⟨?_, ?_, ?_⟩
  · have hb : build_context_map root nsmap
        = if xbrli = "" then []
          else assignFold (ctxAssign xbrli) (findall root xbrli "context") := by
      rw [build_context_map, hx]
    rw [hb, if_neg hx']
    refine assignFold_get_isSome (ctxAssign xbrli) _ "" ctx hctx ?_
    rw [assignsKey, ctxAssign, hid]
    rfl
  · intro hnone
    rw [factOfNode, hkey, hnone]
  · intro ci hci
    rw [factOfNode, hkey, hci]

/-- C3 witness: on `docC3`, the context table has an empty-string entry
and the `contextRef`-less fact resolves to it. -/
theorem claim3_witness :
    (dictGet (build_context_map docC3.root (buildNsmap docC3.rawNsmap)) "").isSome ∧
    factOfNode [("", { year := some 2022, period_type := "duration" })] [] factC3
      = some { year := some 2022, value := some { lit := "900000" },
               unit := none, period_type := "duration" } := by
  have h := claim3_amended_empty_id_resolution docC3.root (buildNsmap docC3.rawNsmap)
    "X" [("", { year := some 2022, period_type := "duration" })] [] factC3 ctxC3
    rfl (by decide)
    (by
      have e : findall docC3.root "X" "context" = [ctxC3] := rfl
      rw [e]
      exact List.mem_singleton.mpr rfl)
    rfl (Or.inl rfl)
  exact ⟨h.1, h.2.2 { year := some 2022, period_type := "duration" } rfl⟩

/-- C4: `_safe_year` returns the calendar year of the first 10
characters when they parse as a valid `YYYY-MM-DD` date; otherwise the
first 4 characters as a Python integer when that parses; otherwise an
absent year.  It is a total function on strings (the two `ValueError`
cases are the only ones and both are caught). -/
theorem claim4_safe_year_two_tier (s : String) :
    (∀ y m d, isoDateFields? (s.take 10) = some (y, m, d) →
      safe_year s = some (Int.ofNat y)) ∧
    (isoDateFields? (s.take 10) = none → ∀ n, pyInt? (s.take 4) = some n →
      safe_year s = some n) ∧
    (isoDateFields? (s.take 10) = none → pyInt? (s.take 4) = none →
      safe_year s = none) := by
  refine ⟨?_, ?_, ?_⟩
  · intro y m d h
    unfold safe_year fromisoformatYear?
    rw [h]
    rfl
  · intro h n hn
    unfold safe_year fromisoformatYear?
    rw [h]
    exact hn
  · intro h hn
    unfold safe_year fromisoformatYear?
    rw [h]
    exact hn

/-- C4 witness: the three tiers at concrete inputs. -/
theorem claim4_witness :
    safe_year "2022-03-31" = some 2022 ∧ safe_year "2023Q1" = some 2023 ∧
      safe_year "bad" = none :=
  ⟨(claim4_safe_year_two_tier "2022-03-31").1 2022 3 31 rfl,
   (claim4_safe_year_two_tier "2023Q1").2.1 rfl 2023 rfl,
   (claim4_safe_year_two_tier "bad").2.2 rfl rfl⟩

/-- C5: during the fact scan, a fact whose context reference does not
resolve yields no point at all, while a fact whose context resolves but
whose unit reference does not resolve is still collected as a point with
an absent unit (`conceptPoints` collects exactly the `factOfNode`
results, so a `none` contributes nothing). -/
theorem claim5_context_skip_unit_absent
    (contexts : List (String × ContextInfo)) (units : List (String × String))
    (node : Xml) :
    (dictGet contexts ((node.attr "contextRef").getD "") = none →
      factOfNode contexts units node = none) ∧
    (∀ ci, dictGet contexts ((node.attr "contextRef").getD "") = some ci →
      dictGet units ((node.attr "unitRef").getD "") = none →
      factOfNode contexts units node = some
        { year := ci.year,
          value := if strTruthy node.text then pyFloat? (node.text.getD "") else none,
          unit := none, period_type := ci.period_type }) := by
  constructor
  · intro h
    rw [factOfNode, h]
  · intro ci hc hu
    rw [factOfNode, hc, hu]

/-- C5 witness: an unresolvable `contextRef` is skipped; an unresolvable
`unitRef` is kept with an absent unit. -/
theorem claim5_witness :
    factOfNode [("c", { year := some 2023, period_type := "duration" })] []
      (.elem "J" "NetSales" [("contextRef", "nope")] (some "5") []) = none ∧
    factOfNode [("c", { year := some 2023, period_type := "duration" })] []
      (.elem "J" "NetSales" [("contextRef", "c"), ("unitRef", "u")] (some "5") [])
      = some { year := some 2023, value := some { lit := "5" }, unit := none,
               period_type := "duration" } :=
  ⟨(claim5_context_skip_unit_absent _ _ _).1 rfl,
   (claim5_context_skip_unit_absent _ _ _).2
     { year := some 2023, period_type := "duration" } rfl rfl⟩

/-- C6: when the built namespace map has no `xbrli` entry, both lookup
tables are empty (no exception is modelled: the builders are total) and
every metric in the parse result maps to an empty series. -/
theorem claim6_missing_xbrli_graceful
    (cd : List (String × List String)) (doc : XDocument)
    (out : List (String × List Point))
    (h : dictGet (buildNsmap doc.rawNsmap) "xbrli" = none)
    (hp : parse_file cd doc = some out) :
    build_context_map doc.root (buildNsmap doc.rawNsmap) = [] ∧
    build_unit_map doc.root (buildNsmap doc.rawNsmap) = [] ∧
    ∀ ms ∈ out, ms.2 = [] := by
  have hctx : build_context_map doc.root (buildNsmap doc.rawNsmap) = [] := by
    rw [build_context_map, h]
  have hunit : build_unit_map doc.root (buildNsmap doc.rawNsmap) = [] := by
    rw [build_unit_map, h]
  refine ⟨hctx, hunit, ?_⟩
  simp only [parse_file] at hp
  rw [hctx] at hp
  exact foldl_parseStep_nil_contexts cd doc.root (buildNsmap doc.rawNsmap)
    (build_unit_map doc.root (buildNsmap doc.rawNsmap)) (some []) out
    (fun o ho ms hms => by rw [← Option.some.inj ho] at hms; cases hms) hp

/-- C6 witness: `docB` declares no `xbrli` prefix; its tables are empty
and its only metric maps to the empty series. -/
theorem claim6_witness :
    build_context_map docB.root (buildNsmap docB.rawNsmap) = [] ∧
    build_unit_map docB.root (buildNsmap docB.rawNsmap) = [] ∧
    ∀ ms ∈ [("revenue", ([] : List Point))], ms.2 = [] :=
  claim6_missing_xbrli_graceful [("revenue", ["jp:NetSales"])] docB
    [("revenue", [])] rfl rfl

/-- C7: a matching fact whose text is empty or not parseable as a float
is collected at the scan stage as a point with an absent value (no
exception: the coercion is modelled totally), and the merge removes
every absent-value point, so no such fact reaches a returned series. -/
theorem claim7_bad_text_absent_value_dropped :
    (∀ (contexts : List (String × ContextInfo)) (units : List (String × String))
      (node : Xml) (ci : ContextInfo),
      dictGet contexts ((node.attr "contextRef").getD "") = some ci →
      (node.text = none ∨ node.text = some "" ∨
        pyFloatAccepts ((node.text).getD "") = false) →
      factOfNode contexts units node = some
        { year := ci.year, value := none,
          unit := dictGet units ((node.attr "unitRef").getD ""),
          period_type := ci.period_type }) ∧
    (∀ (ps : List Point) (p : Point), p ∈ merge_series ps → p.value ≠ none) := by
  constructor
  · intro contexts units node ci hc htext
    have hv : (if strTruthy node.text then pyFloat? (node.text.getD "") else none)
        = none := by
      rcases htext with h | h | h
      · rw [h]
        rfl
      · rw [h]
        rfl
      · by_cases hs : strTruthy node.text = true
        · rw [if_pos hs]
          simp [pyFloat?, h]
        · rw [if_neg (by simpa using hs)]
    rw [factOfNode, hc, hv]
  · intro ps p hm he
    have hgv := goodPoint_value_isSome (merge_series_good hm)
    rw [he] at hgv
    cases hgv

/-- C7 witness: non-numeric text yields an absent-value point at the
scan, and such a point is dropped by the merge. -/
theorem claim7_witness :
    factOfNode [("c", { year := some 2023, period_type := "duration" })] []
      (.elem "J" "NetSales" [("contextRef", "c")] (some "not-a-number") [])
      = some ptBadValue ∧
    merge_series [ptBadValue] = [] :=
  ⟨claim7_bad_text_absent_value_dropped.1 _ _ _
     { year := some 2023, period_type := "duration" } rfl
     (Or.inr (Or.inr rfl)),
   rfl⟩

/-- C8: parsing is deterministic.  The embedding models Python 3.7+
dicts as insertion-ordered association lists (the only iteration the
source relies on), so `parse_file` is a pure function of the concept
dictionary and the document, and equal documents give equal outputs. -/
theorem claim8_deterministic (cd : List (String × List String))
    (d1 d2 : XDocument) (h : d1 = d2) :
    parse_file cd d1 = parse_file cd d2 := by
  rw [h]

/-- C8 witness: two parses of the sample document coincide. -/
theorem claim8_witness :
    parse_file METRIC_CONCEPTS_JP docA = parse_file METRIC_CONCEPTS_JP docA :=
  claim8_deterministic METRIC_CONCEPTS_JP docA docA rfl

/-- C9: the per-metric merge is idempotent: its output is all-good,
one-per-year and sorted, so a second merge returns it unchanged. -/
theorem claim9_merge_idempotent (ps : List Point) :
    merge_series (merge_series ps) = merge_series ps :=
  merge_series_of_sorted_good (merge_series ps)
    (fun _ hp => merge_series_good hp) (merge_series_pairwise ps)

/-- C10: a unit declaration with no `id` attribute (and a measure with
text) is stored in the unit table under the empty-string id, and a fact
with a missing or empty `unitRef` (whose context resolves) receives that
declaration's measure label rather than an absent unit. -/
theorem claim10_unit_empty_id_resolution
    (root : Xml) (nsmap : List (String × String)) (xbrli : String)
    (contexts : List (String × ContextInfo)) (node u : Xml) (t : String)
    (ci : ContextInfo)
    (hx : dictGet nsmap "xbrli" = some xbrli) (hx' : xbrli ≠ "")
    (hid : u.attr "id" = none)
    (hm : (findFirst u xbrli "measure").bind Xml.text = some t)
    (huniq : (findall root xbrli "unit").filter
      (assignsKey (unitAssign xbrli) "") = [u])
    (href : node.attr "unitRef" = none ∨ node.attr "unitRef" = some "")
    (hc : dictGet contexts ((node.attr "contextRef").getD "") = some ci) :
    dictGet (build_unit_map root nsmap) "" = some (lastColonSegment t) ∧
    factOfNode contexts (build_unit_map root nsmap) node = some
      { year := ci.year,
        value := if strTruthy node.text then pyFloat? (node.text.getD "") else none,
        unit := some (lastColonSegment t), period_type := ci.period_type } := by
  have hassign : unitAssign xbrli u = some ("", lastColonSegment t) := by
    rw [unitAssign]
    cases hf : findFirst u xbrli "measure" with
    | none => rw [hf] at hm; cases hm
    | some m =>
      rw [hf] at hm
      have hmt : m.text = some t := hm
      show (match m.text with
        | none => none
        | some t => some ((u.attr "id").getD "", lastColonSegment t))
        = some ("", lastColonSegment t)
      rw [hmt, hid]
      rfl
  have hbu : build_unit_map root nsmap
      = if xbrli = "" then []
        else assignFold (unitAssign xbrli) (findall root xbrli "unit") := by
    rw [build_unit_map, hx]
  rw [if_neg hx'] at hbu
  have h1 : dictGet (build_unit_map root nsmap) "" = some (lastColonSegment t) := by
    rw [hbu, assignFold_get_unique (unitAssign xbrli) _ "" u huniq, hassign]
    rfl
  have hkey : (node.attr "unitRef").getD "" = "" := by
    rcases href with h | h <;> rw [h] <;> rfl
  refine ⟨h1, ?_⟩
  rw [factOfNode, hc, hkey, h1]

/-- C10 witness: on `docC10`, the id-less unit is stored under the empty
string and the `unitRef`-less fact resolves to its `JPY` label. -/
theorem claim10_witness :
    dictGet (build_unit_map docC10.root (buildNsmap docC10.rawNsmap)) ""
      = some "JPY" ∧
    factOfNode [("c2023", { year := some 2023, period_type := "duration" })]
      (build_unit_map docC10.root (buildNsmap docC10.rawNsmap)) factC10
      = some { year := some 2023, value := some { lit := "1000000" },
               unit := some "JPY", period_type := "duration" } :=
  claim10_unit_empty_id_resolution docC10.root (buildNsmap docC10.rawNsmap) "X"
    [("c2023", { year := some 2023, period_type := "duration" })] factC10 unitC10
    "iso4217:JPY" { year := some 2023, period_type := "duration" }
    rfl (by decide) rfl rfl rfl (Or.inl rfl) rfl

end XbrlParser
